import Mathlib

/-!
Shallow embedding of the `shh` LSB steganography codec
(`src/encode_decode.rs`, `src/lib.rs`).

Byte buffers are `List Nat` whose entries are meant to be bytes (`< 256`);
machine integers (`u8`, `u16`, `u64`, `usize` on a 64-bit host) are `Nat`
with explicit `% 2 ^ w` where the Rust code can wrap or truncate.
Fallible Rust functions returning `anyhow::Result` become `Except ShhError`,
with one constructor per distinct error site of the source.
-/

namespace Shh

/-- Word size of `usize` on the 64-bit host the program targets. -/
def USIZE : Nat := 2 ^ 64

/-- Error kinds, one per `anyhow!` site (plus the two potential panic sites
of `encode_image`, which are modelled as explicit outcomes). -/
inductive ShhError where
  | PayloadTooLarge
  | NameTooLong
  | TruncatedNameLen
  | InvalidName
  | TruncatedPayloadLen
  | SizeOverflow
  | TruncatedPayload
  | PanicReserve
  | PanicFromRaw
deriving DecidableEq

/-- The spec's `TruncatedFrame` kind covers the three decode-side
"ran out of window bytes" failures. -/
def ShhError.isTruncatedFrame : ShhError → Bool
  | .TruncatedNameLen => true
  | .TruncatedPayloadLen => true
  | .TruncatedPayload => true
  | _ => false

/-- Loop body of `encode_byte_in_bytes`: bit `i` of `payload` decides whether
the low bit of the carrier byte is set (`| 0b0000_0001`) or cleared
(`& 0b1111_1110`). -/
def encode_one (target payload i : Nat) : Nat :=
  if payload &&& (1 <<< i) ≠ 0 then target ||| 1 else target &&& 254

/-- `encode_byte_in_bytes(target: &[u8; 8], payload: &u8) -> [u8; 8]`
(src/encode_decode.rs:101-119): one payload byte spread over the LSBs of an
8-byte window. -/
def encode_byte_in_bytes (target : List Nat) (payload : Nat) : List Nat :=
  (List.range 8).map fun i => encode_one (target.getD i 0) payload i

/-- `decode_byte(encoded: &[u8; 8]) -> u8` (src/encode_decode.rs:121-131):
OR the low bit of window byte `i`, shifted left by `i`, into the result.
The source iterates the exactly-8-byte array; `getD` with default 0 agrees
with it on every 8-byte window. -/
def decode_byte (encoded : List Nat) : Nat :=
  (List.range 8).foldl (fun acc i => acc ||| ((1 &&& encoded.getD i 0) <<< i)) 0

/-- `create_byte_chunks` (src/encode_decode.rs:133-137): `chunks_exact(8)` —
consecutive non-overlapping 8-byte windows, trailing remainder dropped. -/
def create_byte_chunks : List Nat → List (List Nat)
  | b0 :: b1 :: b2 :: b3 :: b4 :: b5 :: b6 :: b7 :: rest =>
      [b0, b1, b2, b3, b4, b5, b6, b7] :: create_byte_chunks rest
  | _ => []

/-- `decode_chunks` (src/encode_decode.rs:73-82): take `count` windows off the
chunk iterator and decode each; the second component is the state the
iterator is left in. -/
def decode_chunks (chunks : List (List Nat)) (count : Nat) :
    List Nat × List (List Nat) :=
  ((chunks.take count).map decode_byte, chunks.drop count)

/-- `payload_fits` (src/encode_decode.rs:139-144): `checked_mul(8)`, `None`
(overflow past `usize::MAX`) counts as "does not fit". -/
def payload_fits (payload_size image_rgb_size : Nat) : Bool :=
  if payload_size * 8 < USIZE then decide (payload_size * 8 ≤ image_rgb_size)
  else false

/-- `u64_to_usize` (src/encode_decode.rs:90-99); on the 64-bit host
`usize::MAX = USIZE - 1`. -/
def u64_to_usize (value : Nat) : Except ShhError Nat :=
  if value ≤ USIZE - 1 then .ok value else .error .SizeOverflow

/-- Little-endian byte string of a `w`-byte machine integer
(`u16::to_le_bytes` / `u64::to_le_bytes`); an over-wide `n` is truncated to
the low `w` bytes exactly as the `as`-casts in the source do. -/
def toLeBytes : Nat → Nat → List Nat
  | 0, _ => []
  | w + 1, n => n % 256 :: toLeBytes w (n / 256)

/-- `u16::from_le_bytes` / `u64::from_le_bytes` on a byte list. -/
def fromLeBytes : List Nat → Nat
  | [] => 0
  | b :: rest => b + 256 * fromLeBytes rest

/-- Continuation byte of a UTF-8 sequence: `0x80..=0xBF`. -/
def isCont (b : Nat) : Bool := 0x80 ≤ b && b ≤ 0xBF

/-- Validity check of `String::from_utf8` (Rust std), modelling the standard
UTF-8 acceptance ranges; any entry outside `0..256` is rejected as well. -/
def validUtf8 : List Nat → Bool
  | [] => true
  | b :: rest =>
    if b ≤ 0x7F then
      validUtf8 rest
    else if 0xC2 ≤ b ∧ b ≤ 0xDF then
      match rest with
      | c1 :: r => isCont c1 && validUtf8 r
      | [] => false
    else if b = 0xE0 then
      match rest with
      | c1 :: c2 :: r => (0xA0 ≤ c1 && c1 ≤ 0xBF) && isCont c2 && validUtf8 r
      | _ => false
    else if (0xE1 ≤ b ∧ b ≤ 0xEC) ∨ b = 0xEE ∨ b = 0xEF then
      match rest with
      | c1 :: c2 :: r => isCont c1 && isCont c2 && validUtf8 r
      | _ => false
    else if b = 0xED then
      match rest with
      | c1 :: c2 :: r => (0x80 ≤ c1 && c1 ≤ 0x9F) && isCont c2 && validUtf8 r
      | _ => false
    else if b = 0xF0 then
      match rest with
      | c1 :: c2 :: c3 :: r =>
          (0x90 ≤ c1 && c1 ≤ 0xBF) && isCont c2 && isCont c3 && validUtf8 r
      | _ => false
    else if 0xF1 ≤ b ∧ b ≤ 0xF3 then
      match rest with
      | c1 :: c2 :: c3 :: r => isCont c1 && isCont c2 && isCont c3 && validUtf8 r
      | _ => false
    else if b = 0xF4 then
      match rest with
      | c1 :: c2 :: c3 :: r =>
          (0x80 ≤ c1 && c1 ≤ 0x8F) && isCont c2 && isCont c3 && validUtf8 r
      | _ => false
    else false

/-- The UTF-8 bytes of `"output.txt"`, the virtual file name of a `Literal`. -/
def outputTxt : List Nat := [111, 117, 116, 112, 117, 116, 46, 116, 120, 116]

/-- `Payload` (src/lib.rs:50-53). A Rust `String` is modelled as its UTF-8
byte list; `Vec<u8>` as a byte list. -/
inductive Payload where
  | File : List Nat → List Nat → Payload
  | Literal : List Nat → Payload
deriving DecidableEq

/-- Name a payload is framed under: the `file_name` field, or `"output.txt"`
for a `Literal`. -/
def payload_name : Payload → List Nat
  | .File file_name _ => file_name
  | .Literal _ => outputTxt

/-- Content bytes of a payload (`bytes` field, or the UTF-8 text itself). -/
def payload_content : Payload → List Nat
  | .File _ bytes => bytes
  | .Literal text => text

/-- `Payload::size` (src/lib.rs:166-171): `bytes.len() + 8 + file_name.len()
+ 2` with unchecked `usize` addition, i.e. wrapping modulo `2 ^ 64`. -/
def Payload.size : Payload → Nat
  | .File file_name bytes => (bytes.length + 8 + file_name.length + 2) % USIZE
  | .Literal text => (text.length + 8 + outputTxt.length + 2) % USIZE

/-- `Payload::into_bytes` (src/lib.rs:173-205): the serialized frame —
2-byte LE name length (checked `≤ u16::MAX` for a `File`), name bytes,
8-byte LE content length, content bytes. -/
def Payload.into_bytes : Payload → Except ShhError (List Nat)
  | .File file_name bytes =>
      if file_name.length > 65535 then .error .NameTooLong
      else .ok (toLeBytes 2 file_name.length ++ file_name ++
                toLeBytes 8 bytes.length ++ bytes)
  | .Literal text =>
      .ok (toLeBytes 2 outputTxt.length ++ outputTxt ++
           toLeBytes 8 text.length ++ text)

/-- Tail of `encode_image` (src/encode_decode.rs:28-38): `reserve` with the
subtraction `image_bytes.len() - output.len()` (a panic if it underflowed,
modelled as `PanicReserve`), append of the untouched carrier bytes, and the
`ImageBuffer::from_raw(...).unwrap()` which needs at least the carrier's
length of bytes back (`PanicFromRaw` otherwise). -/
def encode_assemble (carrier encoded : List Nat) : Except ShhError (List Nat) :=
  if encoded.length ≤ carrier.length then
    if carrier.length ≤ (encoded ++ carrier.drop encoded.length).length then
      .ok (encoded ++ carrier.drop encoded.length)
    else .error .PanicFromRaw
  else .error .PanicReserve

/-- `encode_image` (src/encode_decode.rs:6-39) on the flat RGB byte buffer of
the input image (`to_rgb8().into_raw()`, whose length is
`image_rgb_bytes_size = width * height * 3`). -/
def encode_image (carrier : List Nat) (payload : Payload) :
    Except ShhError (List Nat) :=
  if payload_fits payload.size carrier.length then
    match payload.into_bytes with
    | .error e => .error e
    | .ok payload_bytes =>
        encode_assemble carrier
          (((payload_bytes.zip ((create_byte_chunks carrier).take payload.size)).map
              fun pc => encode_byte_in_bytes pc.2 pc.1).flatten)
  else .error .PayloadTooLarge

/-- Last step of `decode_image` (src/encode_decode.rs:61-70): read
`payload_size` content bytes, failing when the windows ran out early. -/
def decode_frame_payload (chunks : List (List Nat)) (nameBytes : List Nat)
    (payload_size : Nat) : Except ShhError (List Nat × List Nat) :=
  if (decode_chunks chunks payload_size).1.length < payload_size then
    .error .TruncatedPayload
  else .ok (nameBytes, (decode_chunks chunks payload_size).1)

/-- `decode_image`, payload-length step (src/encode_decode.rs:56-61): 8 LE
bytes, then `u64_to_usize`. -/
def decode_frame_size (chunks : List (List Nat)) (nameBytes : List Nat) :
    Except ShhError (List Nat × List Nat) :=
  if (decode_chunks chunks 8).1.length = 8 then
    match u64_to_usize (fromLeBytes (decode_chunks chunks 8).1) with
    | .ok payload_size =>
        decode_frame_payload (decode_chunks chunks 8).2 nameBytes payload_size
    | .error e => .error e
  else .error .TruncatedPayloadLen

/-- `decode_image`, name step (src/encode_decode.rs:51-54): read
`file_name_size` windows — however many are left — and require the decoded
bytes to be valid UTF-8. There is no separate length check here. -/
def decode_frame_name (chunks : List (List Nat)) (file_name_size : Nat) :
    Except ShhError (List Nat × List Nat) :=
  if validUtf8 (decode_chunks chunks file_name_size).1 then
    decode_frame_size (decode_chunks chunks file_name_size).2
      (decode_chunks chunks file_name_size).1
  else .error .InvalidName

/-- `decode_image`, name-length step (src/encode_decode.rs:46-49):
`<[u8; 2]>::try_from` succeeds exactly when two windows were available. -/
def decode_frame (chunks : List (List Nat)) :
    Except ShhError (List Nat × List Nat) :=
  if (decode_chunks chunks 2).1.length = 2 then
    decode_frame_name (decode_chunks chunks 2).2
      (fromLeBytes (decode_chunks chunks 2).1)
  else .error .TruncatedNameLen

/-- `decode_image` (src/encode_decode.rs:41-71) on the flat RGB byte buffer;
returns the recovered file name (as its UTF-8 bytes) and content. -/
def decode_image (carrier : List Nat) :
    Except ShhError (List Nat × List Nat) :=
  decode_frame (create_byte_chunks carrier)

lemma one_land_lor_one (x : Nat) : 1 &&& (x ||| 1) = 1 := by
  apply Nat.eq_of_testBit_eq
  intro i
  rw [Nat.testBit_and, Nat.testBit_or]
  cases i with
  | zero => simp
  | succ n => simp [Nat.testBit_succ]

lemma one_land_land_mask (x : Nat) : 1 &&& (x &&& 254) = 0 := by
  apply Nat.eq_of_testBit_eq
  intro i
  rw [Nat.testBit_and, Nat.testBit_and]
  cases i with
  | zero => simp [Nat.testBit_succ]
  | succ n => simp [Nat.testBit_succ]

lemma one_land_eq_mod_two (x : Nat) : 1 &&& x = x % 2 := by
  rw [Nat.land_comm, Nat.and_one_is_mod]

lemma one_land_encode_one (t v i : Nat) :
    1 &&& encode_one t v i = if v &&& (1 <<< i) ≠ 0 then 1 else 0 := by
  unfold encode_one
  by_cases h : v &&& (1 <<< i) ≠ 0
  · rw [if_pos h, if_pos h, one_land_lor_one]
  · rw [if_neg h, if_neg h, one_land_land_mask]

lemma decode_encode_byte (w : List Nat) (v : Nat) (hv : v < 256) :
    decode_byte (encode_byte_in_bytes w v) = v := by
  have h : decode_byte (encode_byte_in_bytes w v) =
      ((((((((0 |||
        (1 &&& encode_one (w.getD 0 0) v 0) <<< 0) |||
        (1 &&& encode_one (w.getD 1 0) v 1) <<< 1) |||
        (1 &&& encode_one (w.getD 2 0) v 2) <<< 2) |||
        (1 &&& encode_one (w.getD 3 0) v 3) <<< 3) |||
        (1 &&& encode_one (w.getD 4 0) v 4) <<< 4) |||
        (1 &&& encode_one (w.getD 5 0) v 5) <<< 5) |||
        (1 &&& encode_one (w.getD 6 0) v 6) <<< 6) |||
        (1 &&& encode_one (w.getD 7 0) v 7) <<< 7) := rfl
  rw [h]
  simp only [one_land_encode_one]
  interval_cases v <;> decide

lemma encode_byte_length (t : List Nat) (v : Nat) :
    (encode_byte_in_bytes t v).length = 8 := by
  simp [encode_byte_in_bytes]

lemma create_byte_chunks_eq (l : List Nat) :
    create_byte_chunks l =
      if 8 ≤ l.length then l.take 8 :: create_byte_chunks (l.drop 8) else [] := by
  rcases l with _ | ⟨a, _ | ⟨b, _ | ⟨c, _ | ⟨d, _ | ⟨e, _ | ⟨f, _ | ⟨g, _ | ⟨h, rest⟩⟩⟩⟩⟩⟩⟩⟩
  all_goals first
    | rfl
    | (rw [if_pos (by simp)]; rfl)

lemma create_byte_chunks_append (w rest : List Nat) (hw : w.length = 8) :
    create_byte_chunks (w ++ rest) = w :: create_byte_chunks rest := by
  rw [create_byte_chunks_eq, if_pos (by simp [hw]),
    List.take_left' hw, List.drop_left' hw]

lemma length_create_byte_chunks (l : List Nat) :
    (create_byte_chunks l).length = l.length / 8 := by
  have H : ∀ (n : Nat) (l : List Nat), l.length ≤ n →
      (create_byte_chunks l).length = l.length / 8 := by
    intro n
    induction n with
    | zero =>
      intro l hl
      rw [create_byte_chunks_eq, if_neg (by omega)]
      simp
      omega
    | succ n ih =>
      intro l hl
      rw [create_byte_chunks_eq]
      by_cases h : 8 ≤ l.length
      · rw [if_pos h]
        have := ih (l.drop 8) (by simp; omega)
        simp only [List.length_cons, this, List.length_drop]
        omega
      · rw [if_neg h]
        simp
        omega
  exact H l.length l le_rfl

lemma mem_create_byte_chunks (l : List Nat) (c : List Nat)
    (hc : c ∈ create_byte_chunks l) : c.length = 8 := by
  have H : ∀ (n : Nat) (l c : List Nat), l.length ≤ n →
      c ∈ create_byte_chunks l → c.length = 8 := by
    intro n
    induction n with
    | zero =>
      intro l c hl hc
      rw [create_byte_chunks_eq, if_neg (by omega)] at hc
      simp at hc
    | succ n ih =>
      intro l c hl hc
      rw [create_byte_chunks_eq] at hc
      by_cases h : 8 ≤ l.length
      · rw [if_pos h] at hc
        rcases List.mem_cons.mp hc with hc | hc
        · rw [hc, List.length_take]
          omega
        · exact ih (l.drop 8) c (by simp; omega) hc
      · rw [if_neg h] at hc
        simp at hc
  exact H l.length l c le_rfl hc

lemma create_byte_chunks_flatten (ws : List (List Nat)) (rest : List Nat)
    (h : ∀ w ∈ ws, w.length = 8) :
    create_byte_chunks (ws.flatten ++ rest) = ws ++ create_byte_chunks rest := by
  induction ws with
  | nil => simp
  | cons w ws ih =>
    rw [List.flatten_cons, List.append_assoc,
      create_byte_chunks_append w _ (h w (by simp)),
      ih (fun x hx => h x (by simp [hx]))]
    rfl

lemma length_flatten_eight (ws : List (List Nat)) (h : ∀ w ∈ ws, w.length = 8) :
    ws.flatten.length = 8 * ws.length := by
  induction ws with
  | nil => simp
  | cons w ws ih =>
    rw [List.flatten_cons]
    simp only [List.length_append, List.length_cons,
      h w (by simp), ih (fun x hx => h x (by simp [hx]))]
    ring

lemma toLeBytes_length (w n : Nat) : (toLeBytes w n).length = w := by
  induction w generalizing n with
  | zero => rfl
  | succ w ih => simp [toLeBytes, ih]

lemma toLeBytes_lt (w n : Nat) : ∀ b ∈ toLeBytes w n, b < 256 := by
  induction w generalizing n with
  | zero => simp [toLeBytes]
  | succ w ih =>
    intro b hb
    simp only [toLeBytes, List.mem_cons] at hb
    rcases hb with hb | hb
    · omega
    · exact ih (n / 256) b hb

lemma fromLeBytes_toLeBytes (w n : Nat) :
    fromLeBytes (toLeBytes w n) = n % 256 ^ w := by
  induction w generalizing n with
  | zero => simp [toLeBytes, fromLeBytes, Nat.mod_one]
  | succ w ih =>
    simp only [toLeBytes, fromLeBytes, ih]
    rw [pow_succ, mul_comm (256 ^ w) 256, Nat.mod_mul]

lemma fromLeBytes_lt (l : List Nat) (h : ∀ b ∈ l, b < 256) :
    fromLeBytes l < 256 ^ l.length := by
  induction l with
  | nil => simp [fromLeBytes]
  | cons b rest ih =>
    have h1 : b < 256 := h b (by simp)
    have h2 : fromLeBytes rest < 256 ^ rest.length :=
      ih (fun x hx => h x (by simp [hx]))
    simp only [fromLeBytes, List.length_cons, pow_succ]
    calc b + 256 * fromLeBytes rest
        ≤ 255 + 256 * fromLeBytes rest := by omega
      _ < 256 * (fromLeBytes rest + 1) := by omega
      _ ≤ 256 * 256 ^ rest.length := by
          exact Nat.mul_le_mul_left 256 (by omega)
      _ = 256 ^ rest.length * 256 := by ring

lemma decode_byte_lt (w : List Nat) : decode_byte w < 256 := by
  have hb : ∀ (x k : Nat), k < 8 → (1 &&& x) <<< k < 256 := by
    intro x k hk
    rw [Nat.shiftLeft_eq]
    calc (1 &&& x) * 2 ^ k ≤ 1 * 2 ^ k :=
          Nat.mul_le_mul_right _ Nat.and_le_left
      _ = 2 ^ k := one_mul _
      _ ≤ 2 ^ 7 := Nat.pow_le_pow_right (by omega) (by omega)
      _ < 256 := by norm_num
  have h256 : (256 : Nat) = 2 ^ 8 := by norm_num
  rw [show decode_byte w =
      ((((((((0 |||
        (1 &&& w.getD 0 0) <<< 0) |||
        (1 &&& w.getD 1 0) <<< 1) |||
        (1 &&& w.getD 2 0) <<< 2) |||
        (1 &&& w.getD 3 0) <<< 3) |||
        (1 &&& w.getD 4 0) <<< 4) |||
        (1 &&& w.getD 5 0) <<< 5) |||
        (1 &&& w.getD 6 0) <<< 6) |||
        (1 &&& w.getD 7 0) <<< 7) from rfl, h256]
  refine Nat.or_lt_two_pow ?_ (h256 ▸ hb _ 7 (by omega))
  refine Nat.or_lt_two_pow ?_ (h256 ▸ hb _ 6 (by omega))
  refine Nat.or_lt_two_pow ?_ (h256 ▸ hb _ 5 (by omega))
  refine Nat.or_lt_two_pow ?_ (h256 ▸ hb _ 4 (by omega))
  refine Nat.or_lt_two_pow ?_ (h256 ▸ hb _ 3 (by omega))
  refine Nat.or_lt_two_pow ?_ (h256 ▸ hb _ 2 (by omega))
  refine Nat.or_lt_two_pow ?_ (h256 ▸ hb _ 1 (by omega))
  refine Nat.or_lt_two_pow (by norm_num) (h256 ▸ hb _ 0 (by omega))

lemma map_decode_encode (F : List Nat) (chs : List (List Nat))
    (hF : ∀ b ∈ F, b < 256) (hlen : F.length ≤ chs.length) :
    ((F.zip chs).map fun pc => encode_byte_in_bytes pc.2 pc.1).map decode_byte
      = F := by
  induction F generalizing chs with
  | nil => simp
  | cons b F ih =>
    cases chs with
    | nil => simp at hlen
    | cons c chs =>
      simp only [List.zip_cons_cons, List.map_cons]
      rw [decode_encode_byte c b (hF b (by simp)),
        ih chs (fun x hx => hF x (by simp [hx])) (by simpa using hlen)]

lemma getD_append_right (l1 l2 : List Nat) (n : Nat) (h : l1.length ≤ n) :
    (l1 ++ l2).getD n 0 = l2.getD (n - l1.length) 0 := by
  rw [List.getD_eq_getElem?_getD, List.getD_eq_getElem?_getD,
    List.getElem?_append_right h]

lemma getD_drop (l : List Nat) (n m : Nat) :
    (l.drop n).getD m 0 = l.getD (n + m) 0 := by
  rw [List.getD_eq_getElem?_getD, List.getD_eq_getElem?_getD,
    List.getElem?_drop]

lemma into_bytes_File (nm ct : List Nat) (hn : nm.length ≤ 65535) :
    (Payload.File nm ct).into_bytes =
      .ok (toLeBytes 2 nm.length ++ nm ++ toLeBytes 8 ct.length ++ ct) := by
  simp only [Payload.into_bytes]
  rw [if_neg (by omega)]

lemma frame_length_eq (nm ct : List Nat) :
    (toLeBytes 2 nm.length ++ nm ++ toLeBytes 8 ct.length ++ ct).length
      = 2 + nm.length + 8 + ct.length := by
  simp [toLeBytes_length]
  omega

lemma frame_bytes_lt (nm ct : List Nat) (hnb : ∀ b ∈ nm, b < 256)
    (hcb : ∀ b ∈ ct, b < 256) :
    ∀ b ∈ toLeBytes 2 nm.length ++ nm ++ toLeBytes 8 ct.length ++ ct,
      b < 256 := by
  intro b hb
  simp only [List.mem_append] at hb
  rcases hb with ((hb | hb) | hb) | hb
  · exact toLeBytes_lt 2 _ b hb
  · exact hnb b hb
  · exact toLeBytes_lt 8 _ b hb
  · exact hcb b hb

lemma decode_chunks_append (W T : List (List Nat)) (k : Nat)
    (hk : k ≤ W.length) :
    decode_chunks (W ++ T) k = ((W.map decode_byte).take k, W.drop k ++ T) := by
  unfold decode_chunks
  rw [List.take_append_eq_append_take, List.drop_append_eq_append_drop,
    Nat.sub_eq_zero_of_le hk]
  simp [List.map_take]

lemma decode_frame_of_windows (W T : List (List Nat)) (nm ct : List Nat)
    (hWdec : W.map decode_byte =
      toLeBytes 2 nm.length ++ nm ++ toLeBytes 8 ct.length ++ ct)
    (hWlen : W.length = 2 + nm.length + 8 + ct.length)
    (hn : nm.length ≤ 65535) (hval : validUtf8 nm = true)
    (hct : ct.length < USIZE) :
    decode_frame (W ++ T) = .ok (nm, ct) := by
  have hA : (toLeBytes 2 nm.length).length = 2 := toLeBytes_length 2 _
  have hB : (toLeBytes 8 ct.length).length = 8 := toLeBytes_length 8 _
  have hAnm : (toLeBytes 2 nm.length ++ nm).length = 2 + nm.length := by
    simp [hA]
  have hAnmB : (toLeBytes 2 nm.length ++ nm ++ toLeBytes 8 ct.length).length
      = 2 + nm.length + 8 := by
    simp [hA, hB]
    omega
  -- step 1: the 2-byte name length
  unfold decode_frame
  rw [decode_chunks_append W T 2 (by omega)]
  dsimp only
  have h1 : (W.map decode_byte).take 2 = toLeBytes 2 nm.length := by
    rw [hWdec]
    simp only [List.append_assoc]
    exact List.take_left' hA
  rw [h1, if_pos hA]
  have hfrom1 : fromLeBytes (toLeBytes 2 nm.length) = nm.length := by
    rw [fromLeBytes_toLeBytes]
    exact Nat.mod_eq_of_lt (by norm_num; omega)
  rw [hfrom1]
  -- step 2: the name bytes
  unfold decode_frame_name
  rw [decode_chunks_append (W.drop 2) T nm.length
    (by simp only [List.length_drop]; omega)]
  dsimp only
  have h2 : ((W.drop 2).map decode_byte).take nm.length = nm := by
    rw [List.map_drop, hWdec]
    simp only [List.append_assoc]
    rw [List.drop_left' hA]
    exact List.take_left' rfl
  rw [h2, if_pos hval, List.drop_drop]
  -- step 3: the 8-byte payload length
  unfold decode_frame_size
  rw [decode_chunks_append (W.drop (2 + nm.length)) T 8
    (by simp only [List.length_drop]; omega)]
  dsimp only
  have h3 : ((W.drop (2 + nm.length)).map decode_byte).take 8
      = toLeBytes 8 ct.length := by
    rw [List.map_drop, hWdec]
    rw [show toLeBytes 2 nm.length ++ nm ++ toLeBytes 8 ct.length ++ ct
        = (toLeBytes 2 nm.length ++ nm) ++ (toLeBytes 8 ct.length ++ ct) by
      simp [List.append_assoc]]
    rw [List.drop_left' hAnm]
    exact List.take_left' hB
  rw [h3, if_pos hB]
  have hfrom3 : fromLeBytes (toLeBytes 8 ct.length) = ct.length := by
    rw [fromLeBytes_toLeBytes]
    refine Nat.mod_eq_of_lt ?_
    have : (256 : Nat) ^ 8 = USIZE := by norm_num [USIZE]
    omega
  rw [hfrom3]
  have hu : u64_to_usize ct.length = .ok ct.length := by
    unfold u64_to_usize
    rw [if_pos (Nat.le_sub_one_of_lt hct)]
  rw [hu]
  dsimp only
  rw [List.drop_drop]
  -- step 4: the payload bytes
  unfold decode_frame_payload
  rw [decode_chunks_append (W.drop (2 + nm.length + 8)) T ct.length
    (by simp only [List.length_drop]; omega)]
  dsimp only
  have h4 : ((W.drop (2 + nm.length + 8)).map decode_byte).take ct.length
      = ct := by
    rw [List.map_drop, hWdec]
    rw [show toLeBytes 2 nm.length ++ nm ++ toLeBytes 8 ct.length ++ ct
        = (toLeBytes 2 nm.length ++ nm ++ toLeBytes 8 ct.length) ++ ct by
      simp [List.append_assoc]]
    rw [List.drop_left' hAnmB]
    exact List.take_length ct
  rw [h4, if_neg (by omega)]

lemma Payload_size_File (nm ct : List Nat)
    (h : ct.length + 8 + nm.length + 2 < USIZE) :
    (Payload.File nm ct).size = 2 + nm.length + 8 + ct.length := by
  show (ct.length + 8 + nm.length + 2) % USIZE = _
  rw [Nat.mod_eq_of_lt h]
  omega

lemma roundtrip_File (carrier nm ct : List Nat)
    (hn : nm.length ≤ 65535) (hval : validUtf8 nm = true)
    (hnb : ∀ b ∈ nm, b < 256) (hcb : ∀ b ∈ ct, b < 256)
    (hfit : (2 + nm.length + 8 + ct.length) * 8 ≤ carrier.length)
    (hc : carrier.length < USIZE) :
    (encode_image carrier (Payload.File nm ct)).bind decode_image
      = Except.ok (nm, ct) := by
  have hLU : 2 + nm.length + 8 + ct.length < USIZE := by
    unfold USIZE at hc ⊢
    omega
  have hsize : (Payload.File nm ct).size = 2 + nm.length + 8 + ct.length :=
    Payload_size_File nm ct (by omega)
  have hfits : payload_fits (2 + nm.length + 8 + ct.length) carrier.length
      = true := by
    unfold payload_fits
    rw [if_pos (by omega)]
    exact decide_eq_true hfit
  have hF := frame_length_eq nm ct
  have hFlt := frame_bytes_lt nm ct hnb hcb
  have hLch : 2 + nm.length + 8 + ct.length
      ≤ (create_byte_chunks carrier).length := by
    rw [length_create_byte_chunks carrier, Nat.le_div_iff_mul_le (by omega)]
    exact hfit
  have hchslen : ((create_byte_chunks carrier).take
      (2 + nm.length + 8 + ct.length)).length
      = 2 + nm.length + 8 + ct.length := by
    rw [List.length_take]
    omega
  have hW8 : ∀ w ∈ ((toLeBytes 2 nm.length ++ nm ++ toLeBytes 8 ct.length ++ ct).zip
      ((create_byte_chunks carrier).take (2 + nm.length + 8 + ct.length))).map
        (fun pc => encode_byte_in_bytes pc.2 pc.1), w.length = 8 := by
    intro w hw
    rw [List.mem_map] at hw
    obtain ⟨pc, _, rfl⟩ := hw
    exact encode_byte_length _ _
  have hWlen : (((toLeBytes 2 nm.length ++ nm ++ toLeBytes 8 ct.length ++ ct).zip
      ((create_byte_chunks carrier).take (2 + nm.length + 8 + ct.length))).map
        (fun pc => encode_byte_in_bytes pc.2 pc.1)).length
      = 2 + nm.length + 8 + ct.length := by
    rw [List.length_map, List.length_zip, hF, hchslen]
    simp
  have henclen : ((((toLeBytes 2 nm.length ++ nm ++ toLeBytes 8 ct.length ++ ct).zip
      ((create_byte_chunks carrier).take (2 + nm.length + 8 + ct.length))).map
        (fun pc => encode_byte_in_bytes pc.2 pc.1)).flatten).length
      = 8 * (2 + nm.length + 8 + ct.length) := by
    rw [length_flatten_eight _ hW8, hWlen]
  have hWdec : (((toLeBytes 2 nm.length ++ nm ++ toLeBytes 8 ct.length ++ ct).zip
      ((create_byte_chunks carrier).take (2 + nm.length + 8 + ct.length))).map
        (fun pc => encode_byte_in_bytes pc.2 pc.1)).map decode_byte
      = toLeBytes 2 nm.length ++ nm ++ toLeBytes 8 ct.length ++ ct :=
    map_decode_encode _ _ hFlt (by rw [hF, hchslen])
  have hE : encode_image carrier (Payload.File nm ct) =
      .ok ((((toLeBytes 2 nm.length ++ nm ++ toLeBytes 8 ct.length ++ ct).zip
              ((create_byte_chunks carrier).take
                (2 + nm.length + 8 + ct.length))).map
            fun pc => encode_byte_in_bytes pc.2 pc.1).flatten ++
          carrier.drop (8 * (2 + nm.length + 8 + ct.length))) := by
    unfold encode_image
    rw [hsize, if_pos hfits, into_bytes_File nm ct hn]
    dsimp only
    unfold encode_assemble
    rw [henclen, if_pos (by omega)]
    rw [if_pos (by
      simp only [List.length_append, List.length_drop, henclen]
      omega)]
  rw [hE]
  show decode_image _ = Except.ok (nm, ct)
  unfold decode_image
  rw [create_byte_chunks_flatten _ _ hW8]
  exact decode_frame_of_windows _ _ nm ct hWdec hWlen hn hval
    (by unfold USIZE at hc ⊢; omega)

lemma encode_image_Literal_eq (carrier ct : List Nat) :
    encode_image carrier (Payload.Literal ct)
      = encode_image carrier (Payload.File outputTxt ct) := rfl

/-- Claim C1: for every carrier and payload whose name is at most 65535 UTF-8
bytes, if the capacity check `frame_length * 8 ≤ carrier.length` passes
(`frame_length = 2 + name_length + 8 + payload_length`), then decoding the
encoded carrier returns exactly the payload's name and content bytes; for a
`Literal` the name is the UTF-8 of `"output.txt"` (`payload_name` reduces to
`outputTxt`) and the content is the text's UTF-8 bytes. -/
theorem shh_c1 (carrier : List Nat) (p : Payload)
    (hn : (payload_name p).length ≤ 65535)
    (hval : validUtf8 (payload_name p) = true)
    (hnb : ∀ b ∈ payload_name p, b < 256)
    (hcb : ∀ b ∈ payload_content p, b < 256)
    (hfit : (2 + (payload_name p).length + 8 + (payload_content p).length) * 8
      ≤ carrier.length)
    (hc : carrier.length < USIZE) :
    (encode_image carrier p).bind decode_image
      = Except.ok (payload_name p, payload_content p) := by
  cases p with
  | File nm ct =>
    exact roundtrip_File carrier nm ct hn hval hnb hcb hfit hc
  | Literal ct =>
    rw [encode_image_Literal_eq]
    exact roundtrip_File carrier outputTxt ct hn hval hnb hcb hfit hc

set_option maxRecDepth 10000 in
/-- Witness for C1: a 168-byte carrier and the literal text `"A"`; the
decode returns `("output.txt", "A")`. -/
theorem shh_c1_witness :
    (encode_image (List.replicate 168 7) (Payload.Literal [65])).bind decode_image
      = Except.ok (outputTxt, [65]) :=
  shh_c1 (List.replicate 168 7) (Payload.Literal [65]) (by decide) (by decide)
    (by decide) (by decide) (by decide) (by decide)

/-- Claim C2: for every byte value and every 8-byte window, decoding the
encoded window returns the byte value. -/
theorem shh_c2 (w : List Nat) (v : Nat) (hw : w.length = 8) (hv : v < 256) :
    decode_byte (encode_byte_in_bytes w v) = v :=
  decode_encode_byte w v hv

/-- Witness for C2 at a concrete window and value. -/
theorem shh_c2_witness :
    decode_byte (encode_byte_in_bytes [11, 19, 101, 17, 25, 1, 13, 250] 166)
      = 166 :=
  shh_c2 [11, 19, 101, 17, 25, 1, 13, 250] 166 (by decide) (by decide)

/-- Claim C3: for platform-width inputs, `payload_fits` is true iff the exact
product `frame_length * 8` is representable in `usize` and is at most the
carrier length; on multiplication overflow it is false. -/
theorem shh_c3 (frame_length carrier_length : Nat)
    (hp : frame_length < USIZE) (hc : carrier_length < USIZE) :
    payload_fits frame_length carrier_length = true ↔
      (frame_length * 8 < USIZE ∧ frame_length * 8 ≤ carrier_length) := by
  unfold payload_fits
  by_cases h : frame_length * 8 < USIZE
  · rw [if_pos h]
    simp [h]
  · rw [if_neg h]
    simp [h]

/-- Witness for C3 at the exact-fit boundary input. -/
theorem shh_c3_witness :
    payload_fits 10 80 = true ↔ (10 * 8 < USIZE ∧ 10 * 8 ≤ 80) :=
  shh_c3 10 80 (by decide) (by decide)

lemma enc_blocks_len (F : List Nat) (chs : List (List Nat)) :
    ((((F.zip chs).map fun pc => encode_byte_in_bytes pc.2 pc.1).flatten)).length
      = 8 * min F.length chs.length := by
  rw [length_flatten_eight]
  · rw [List.length_map, List.length_zip]
  · intro w hw
    rw [List.mem_map] at hw
    obtain ⟨pc, _, rfl⟩ := hw
    exact encode_byte_length _ _

lemma into_bytes_error (p : Payload) (e : ShhError)
    (h : p.into_bytes = .error e) : e = .NameTooLong := by
  cases p with
  | File nm ct =>
    simp only [Payload.into_bytes] at h
    by_cases hnm : nm.length > 65535
    · rw [if_pos hnm] at h
      injection h with h
      exact h.symm
    · rw [if_neg hnm] at h
      exact Except.noConfusion h
  | Literal ct => exact Except.noConfusion h

/-- Claim C4: whenever encode succeeds, the output buffer has the carrier's
length and every byte at offset `frame_length * 8` (with `frame_length` the
`Payload.size` value used by the capacity check) or beyond is the original
carrier byte. -/
theorem shh_c4 (carrier : List Nat) (p : Payload) (out : List Nat)
    (h : encode_image carrier p = .ok out) :
    out.length = carrier.length ∧
      ∀ i, p.size * 8 ≤ i → out.getD i 0 = carrier.getD i 0 := by
  unfold encode_image at h
  by_cases hfits : payload_fits p.size carrier.length = true
  · rw [if_pos hfits] at h
    cases hib : p.into_bytes with
    | error e =>
      rw [hib] at h
      exact Except.noConfusion h
    | ok F =>
      rw [hib] at h
      dsimp only at h
      unfold encode_assemble at h
      have helen := enc_blocks_len F ((create_byte_chunks carrier).take p.size)
      have hchs : ((create_byte_chunks carrier).take p.size).length
          = min p.size (carrier.length / 8) := by
        rw [List.length_take, length_create_byte_chunks]
      rw [hchs] at helen
      have hele : (((F.zip ((create_byte_chunks carrier).take p.size)).map
          fun pc => encode_byte_in_bytes pc.2 pc.1).flatten).length
          ≤ carrier.length := by
        omega
      rw [if_pos hele, if_pos (by
        simp only [List.length_append, List.length_drop]
        omega)] at h
      injection h with h
      subst h
      constructor
      · simp only [List.length_append, List.length_drop]
        omega
      · intro i hi
        have hile : (((F.zip ((create_byte_chunks carrier).take p.size)).map
            fun pc => encode_byte_in_bytes pc.2 pc.1).flatten).length ≤ i := by
          omega
        rw [getD_append_right _ _ i hile, getD_drop]
        congr 1
        omega
  · rw [if_neg hfits] at h
    exact Except.noConfusion h

/-- Witness for C4: encoding an empty `File` payload into an 80-byte zero
carrier succeeds (the output happens to be the carrier itself). -/
theorem shh_c4_witness :
    (List.replicate 80 (0 : Nat)).length = (List.replicate 80 (0 : Nat)).length ∧
      ∀ i, (Payload.File [] []).size * 8 ≤ i →
        (List.replicate 80 (0 : Nat)).getD i 0
          = (List.replicate 80 (0 : Nat)).getD i 0 :=
  shh_c4 (List.replicate 80 0) (Payload.File [] []) (List.replicate 80 0)
    (by rfl)

lemma encode_byte_getD (w : List Nat) (v i : Nat) (hi : i < 8) :
    (encode_byte_in_bytes w v).getD i 0 = encode_one (w.getD i 0) v i := by
  interval_cases i <;> rfl

/-- Claim C8: encoding changes at most bit 0 of each window byte — bits 1
and up of every byte of `encode_byte_in_bytes w v` equal those of `w`. -/
theorem shh_c8 (w : List Nat) (v : Nat) (hw : w.length = 8)
    (hb : ∀ b ∈ w, b < 256) (i j : Nat) (hi : i < 8) (hj : 1 ≤ j) :
    ((encode_byte_in_bytes w v).getD i 0).testBit j
      = (w.getD i 0).testBit j := by
  rw [encode_byte_getD w v i hi]
  have hx : w.getD i 0 < 256 := by
    have hmem : w.getD i 0 ∈ w := by
      rw [List.getD_eq_getElem w 0 (by omega)]
      exact List.getElem_mem _
    exact hb _ hmem
  unfold encode_one
  split
  · rw [Nat.testBit_or]
    have h1 : Nat.testBit 1 j = false := Nat.testBit_lt_two_pow (by
      calc (1 : Nat) < 2 ^ 1 := by norm_num
        _ ≤ 2 ^ j := Nat.pow_le_pow_right (by omega) hj)
    simp [h1]
  · rw [Nat.testBit_and]
    rcases Nat.lt_or_ge j 8 with hj8 | hj8
    · have h254 : Nat.testBit 254 j = true := by
        interval_cases j <;> decide
      simp [h254]
    · have h2j : (256 : Nat) ≤ 2 ^ j := by
        calc (256 : Nat) = 2 ^ 8 := by norm_num
          _ ≤ 2 ^ j := Nat.pow_le_pow_right (by omega) hj8
      have h254 : Nat.testBit 254 j = false :=
        Nat.testBit_lt_two_pow (by omega)
      have hxw : Nat.testBit (w.getD i 0) j = false :=
        Nat.testBit_lt_two_pow (by omega)
      rw [h254, hxw, Bool.and_false]

/-- Witness for C8 at a concrete window, value, byte index and bit index. -/
theorem shh_c8_witness :
    ((encode_byte_in_bytes [7, 7, 7, 7, 7, 7, 7, 7] 166).getD 3 0).testBit 5
      = (([7, 7, 7, 7, 7, 7, 7, 7] : List Nat).getD 3 0).testBit 5 :=
  shh_c8 [7, 7, 7, 7, 7, 7, 7, 7] 166 (by decide) (by decide) 3 5
    (by decide) (by decide)

/-- Claim C9: `decode_byte` depends only on bit 0 of each of the 8 window
bytes: windows agreeing on every byte's low bit decode identically. -/
theorem shh_c9 (w w' : List Nat) (h8 : w.length = 8) (h8' : w'.length = 8)
    (h : ∀ i < 8, w.getD i 0 % 2 = w'.getD i 0 % 2) :
    decode_byte w = decode_byte w' := by
  rw [show decode_byte w =
      ((((((((0 |||
        (1 &&& w.getD 0 0) <<< 0) |||
        (1 &&& w.getD 1 0) <<< 1) |||
        (1 &&& w.getD 2 0) <<< 2) |||
        (1 &&& w.getD 3 0) <<< 3) |||
        (1 &&& w.getD 4 0) <<< 4) |||
        (1 &&& w.getD 5 0) <<< 5) |||
        (1 &&& w.getD 6 0) <<< 6) |||
        (1 &&& w.getD 7 0) <<< 7) from rfl,
    show decode_byte w' =
      ((((((((0 |||
        (1 &&& w'.getD 0 0) <<< 0) |||
        (1 &&& w'.getD 1 0) <<< 1) |||
        (1 &&& w'.getD 2 0) <<< 2) |||
        (1 &&& w'.getD 3 0) <<< 3) |||
        (1 &&& w'.getD 4 0) <<< 4) |||
        (1 &&& w'.getD 5 0) <<< 5) |||
        (1 &&& w'.getD 6 0) <<< 6) |||
        (1 &&& w'.getD 7 0) <<< 7) from rfl]
  simp only [one_land_eq_mod_two]
  rw [h 0 (by omega), h 1 (by omega), h 2 (by omega), h 3 (by omega),
    h 4 (by omega), h 5 (by omega), h 6 (by omega), h 7 (by omega)]

/-- Witness for C9: two windows with equal low bits but different high bits
decode to the same byte. -/
theorem shh_c9_witness :
    decode_byte [0, 1, 2, 3, 4, 5, 6, 7] = decode_byte [2, 3, 0, 1, 6, 7, 4, 5] :=
  shh_c9 [0, 1, 2, 3, 4, 5, 6, 7] [2, 3, 0, 1, 6, 7, 4, 5]
    (by decide) (by decide) (by decide)

/-- Claim C10: if the capacity check passes, `encode_image` never reaches
either panic site (`reserve` subtraction, `from_raw` unwrap): it returns a
full-length buffer, or at worst the ordinary `NameTooLong` error. -/
theorem shh_c10 (carrier : List Nat) (p : Payload)
    (hfits : payload_fits p.size carrier.length = true) :
    (∃ out, encode_image carrier p = .ok out ∧ out.length = carrier.length)
      ∨ encode_image carrier p = .error .NameTooLong := by
  unfold encode_image
  rw [if_pos hfits]
  cases hib : p.into_bytes with
  | error e =>
    right
    rw [into_bytes_error p e hib]
  | ok F =>
    left
    dsimp only
    unfold encode_assemble
    have helen := enc_blocks_len F ((create_byte_chunks carrier).take p.size)
    have hchs : ((create_byte_chunks carrier).take p.size).length
        = min p.size (carrier.length / 8) := by
      rw [List.length_take, length_create_byte_chunks]
    rw [hchs] at helen
    have hele : (((F.zip ((create_byte_chunks carrier).take p.size)).map
        fun pc => encode_byte_in_bytes pc.2 pc.1).flatten).length
        ≤ carrier.length := by
      omega
    rw [if_pos hele, if_pos (by
      simp only [List.length_append, List.length_drop]
      omega)]
    refine ⟨_, rfl, ?_⟩
    simp only [List.length_append, List.length_drop]
    omega

/-- Witness for C10: the empty `File` payload fits an 80-byte carrier. -/
theorem shh_c10_witness :
    (∃ out, encode_image (List.replicate 80 0) (Payload.File [] []) = .ok out ∧
        out.length = (List.replicate 80 (0 : Nat)).length)
      ∨ encode_image (List.replicate 80 0) (Payload.File [] [])
          = .error .NameTooLong :=
  shh_c10 (List.replicate 80 0) (Payload.File [] []) (by decide)

lemma Payload_size_File_eq (nm ct : List Nat) :
    (Payload.File nm ct).size = (ct.length + 8 + nm.length + 2) % USIZE := by
  simp only [Payload.size]

/-- Counterexample to C5 as stated: on this 24-byte carrier the first two
windows decode to a declared name length of 3, but only one window remains;
the truncated name bytes `[255]` are invalid UTF-8, so `decode_image` fails
with `InvalidName` — not with the `TruncatedFrame` kind the claim requires
for a short name read. -/
theorem shh_c5_cex :
    fromLeBytes (((create_byte_chunks
        [1, 1, 0, 0, 0, 0, 0, 0,  0, 0, 0, 0, 0, 0, 0, 0,
         1, 1, 1, 1, 1, 1, 1, 1]).take 2).map decode_byte) = 3 ∧
    ((create_byte_chunks
        [1, 1, 0, 0, 0, 0, 0, 0,  0, 0, 0, 0, 0, 0, 0, 0,
         1, 1, 1, 1, 1, 1, 1, 1]).drop 2).length = 1 ∧
    decode_image
        [1, 1, 0, 0, 0, 0, 0, 0,  0, 0, 0, 0, 0, 0, 0, 0,
         1, 1, 1, 1, 1, 1, 1, 1] = .error .InvalidName ∧
    ShhError.isTruncatedFrame .InvalidName = false :=
  ⟨rfl, rfl, rfl, rfl⟩

/-- Claim C5 (amended): after the 2-byte name length is read, the name read
itself raises no truncation error — the bytes actually available (possibly
fewer than `name_length`) are checked for UTF-8 validity, failing with
`InvalidName` exactly when they are invalid; when they are valid but fewer
than `name_length` windows remained, deserialization proceeds and fails with
the `TruncatedFrame` kind only later, at the 8-byte payload-length read. -/
theorem shh_c5 (chunks : List (List Nat)) (h2 : 2 ≤ chunks.length) :
    (validUtf8 (((chunks.drop 2).take
        (fromLeBytes ((chunks.take 2).map decode_byte))).map decode_byte)
          = false →
      decode_frame chunks = .error .InvalidName) ∧
    (validUtf8 (((chunks.drop 2).take
        (fromLeBytes ((chunks.take 2).map decode_byte))).map decode_byte)
          = true →
      chunks.length - 2 < fromLeBytes ((chunks.take 2).map decode_byte) →
      decode_frame chunks = .error .TruncatedPayloadLen ∧
        ShhError.isTruncatedFrame .TruncatedPayloadLen = true) := by
  have hc1 : ((chunks.take 2).map decode_byte).length = 2 := by
    rw [List.length_map, List.length_take]
    omega
  have hstep1 : decode_frame chunks = decode_frame_name (chunks.drop 2)
      (fromLeBytes ((chunks.take 2).map decode_byte)) := by
    unfold decode_frame decode_chunks
    dsimp only
    rw [if_pos hc1]
  constructor
  · intro hbad
    rw [hstep1]
    unfold decode_frame_name decode_chunks
    dsimp only
    rw [if_neg (by rw [hbad]; exact Bool.false_ne_true)]
  · intro hgood htrunc
    rw [hstep1]
    unfold decode_frame_name decode_chunks
    dsimp only
    rw [if_pos hgood]
    unfold decode_frame_size decode_chunks
    dsimp only
    rw [if_neg (by
      rw [List.length_map, List.length_take]
      simp only [List.length_drop]
      omega)]
    exact ⟨rfl, rfl⟩

/-- Witness for C5: three windows declaring a 3-byte name with only one
(zero-decoding, hence valid-UTF-8) window left, so deserialization fails at
the payload-length read with the `TruncatedFrame` kind. -/
theorem shh_c5_witness :
    (validUtf8 ((([[1, 1, 0, 0, 0, 0, 0, 0], [0, 0, 0, 0, 0, 0, 0, 0],
        [0, 0, 0, 0, 0, 0, 0, 0]].drop 2).take
        (fromLeBytes (([[1, 1, 0, 0, 0, 0, 0, 0], [0, 0, 0, 0, 0, 0, 0, 0],
          [0, 0, 0, 0, 0, 0, 0, 0]].take 2).map decode_byte))).map decode_byte)
          = false →
      decode_frame [[1, 1, 0, 0, 0, 0, 0, 0], [0, 0, 0, 0, 0, 0, 0, 0],
        [0, 0, 0, 0, 0, 0, 0, 0]] = .error .InvalidName) ∧
    (validUtf8 ((([[1, 1, 0, 0, 0, 0, 0, 0], [0, 0, 0, 0, 0, 0, 0, 0],
        [0, 0, 0, 0, 0, 0, 0, 0]].drop 2).take
        (fromLeBytes (([[1, 1, 0, 0, 0, 0, 0, 0], [0, 0, 0, 0, 0, 0, 0, 0],
          [0, 0, 0, 0, 0, 0, 0, 0]].take 2).map decode_byte))).map decode_byte)
          = true →
      ([[1, 1, 0, 0, 0, 0, 0, 0], [0, 0, 0, 0, 0, 0, 0, 0],
        [0, 0, 0, 0, 0, 0, 0, 0]] : List (List Nat)).length - 2
        < fromLeBytes (([[1, 1, 0, 0, 0, 0, 0, 0], [0, 0, 0, 0, 0, 0, 0, 0],
          [0, 0, 0, 0, 0, 0, 0, 0]].take 2).map decode_byte) →
      decode_frame [[1, 1, 0, 0, 0, 0, 0, 0], [0, 0, 0, 0, 0, 0, 0, 0],
        [0, 0, 0, 0, 0, 0, 0, 0]] = .error .TruncatedPayloadLen ∧
        ShhError.isTruncatedFrame .TruncatedPayloadLen = true) :=
  shh_c5 [[1, 1, 0, 0, 0, 0, 0, 0], [0, 0, 0, 0, 0, 0, 0, 0],
    [0, 0, 0, 0, 0, 0, 0, 0]] (by decide)

/-- Counterexample to C6 as stated: a payload whose exact frame length is
`2^64` makes `Payload::size` wrap to 0 — the overflow is silently truncated
by the unchecked `usize` additions, not detected or reported. -/
theorem shh_c6_cex :
    (Payload.File [] (List.replicate (2 ^ 64 - 10) 0)).size = 0 ∧
    2 + ([] : List Nat).length + 8 +
        (List.replicate (2 ^ 64 - 10) (0 : Nat)).length = 2 ^ 64 := by
  constructor
  · rw [Payload_size_File_eq, List.length_replicate]
    norm_num [USIZE]
  · rw [List.length_replicate]
    norm_num

/-- Claim C6 (amended): the frame length that drives the capacity check is
derived as `2 + name_length + 8 + payload_length` reduced modulo `2^64` —
unchecked `usize` addition that wraps silently on overflow instead of
reporting it: whenever serialization succeeds, the serialized frame's true
length is `2 + name_length + 8 + payload_length` and `Payload.size` is that
length modulo `2^64`. -/
theorem shh_c6 (p : Payload) (F : List Nat) (h : p.into_bytes = .ok F) :
    F.length = 2 + (payload_name p).length + 8 + (payload_content p).length ∧
    p.size = F.length % USIZE := by
  cases p with
  | File nm ct =>
    have hn : ¬nm.length > 65535 := by
      by_contra hcon
      simp only [Payload.into_bytes] at h
      rw [if_pos hcon] at h
      exact Except.noConfusion h
    rw [into_bytes_File nm ct (by omega)] at h
    injection h with h
    subst h
    refine ⟨frame_length_eq nm ct, ?_⟩
    rw [frame_length_eq]
    show (ct.length + 8 + nm.length + 2) % USIZE = _
    congr 1
    omega
  | Literal ct =>
    simp only [Payload.into_bytes] at h
    injection h with h
    subst h
    refine ⟨frame_length_eq outputTxt ct, ?_⟩
    rw [frame_length_eq]
    show (ct.length + 8 + outputTxt.length + 2) % USIZE = _
    congr 1
    omega

/-- Witness for C6 at a concrete one-byte-name, two-byte-content payload. -/
theorem shh_c6_witness :
    ([1, 0, 97, 2, 0, 0, 0, 0, 0, 0, 0, 5, 6] : List Nat).length
        = 2 + (payload_name (Payload.File [97] [5, 6])).length + 8 +
          (payload_content (Payload.File [97] [5, 6])).length ∧
      (Payload.File [97] [5, 6]).size
        = ([1, 0, 97, 2, 0, 0, 0, 0, 0, 0, 0, 5, 6] : List Nat).length % USIZE :=
  shh_c6 (Payload.File [97] [5, 6]) [1, 0, 97, 2, 0, 0, 0, 0, 0, 0, 0, 5, 6]
    (by rfl)

lemma encode_fails_small (carrier : List Nat) (p : Payload)
    (hsize10 : 10 ≤ p.size) (hC : carrier.length < 80) :
    encode_image carrier p = .error .PayloadTooLarge := by
  unfold encode_image
  rw [if_neg ?hno]
  case hno =>
    unfold payload_fits
    by_cases h8 : p.size * 8 < USIZE
    · rw [if_pos h8]
      simp only [decide_eq_true_eq]
      omega
    · rw [if_neg h8]
      exact Bool.false_ne_true

lemma decode_frame_short (chunks : List (List Nat)) (h : chunks.length < 10) :
    ∃ e, decode_frame chunks = .error e ∧
      (e.isTruncatedFrame = true ∨ e = .InvalidName) := by
  unfold decode_frame decode_chunks
  dsimp only
  by_cases h2 : ((chunks.take 2).map decode_byte).length = 2
  · rw [if_pos h2]
    unfold decode_frame_name decode_chunks
    dsimp only
    by_cases hval : validUtf8 (((chunks.drop 2).take
        (fromLeBytes ((chunks.take 2).map decode_byte))).map decode_byte) = true
    · rw [if_pos hval]
      unfold decode_frame_size decode_chunks
      dsimp only
      rw [if_neg (by
        rw [List.length_map, List.length_take]
        simp only [List.length_drop]
        omega)]
      exact ⟨.TruncatedPayloadLen, rfl, Or.inl rfl⟩
    · rw [if_neg hval]
      exact ⟨.InvalidName, rfl, Or.inr rfl⟩
  · rw [if_neg h2]
    exact ⟨.TruncatedNameLen, rfl, Or.inl rfl⟩

/-- Claim C7 (amended): on a carrier shorter than 80 bytes, encoding fails
with `PayloadTooLarge` for every payload whose exact frame length
`2 + name_length + 8 + payload_length` does not overflow `usize` (an
astronomically large payload could wrap `Payload.size` below the capacity
bound), and decoding never succeeds and never panics — it fails with a
`TruncatedFrame`-kind error or, when the partial name bytes are invalid
UTF-8, with `InvalidName`. -/
theorem shh_c7 (carrier : List Nat) (p : Payload) (hC : carrier.length < 80) :
    (2 + (payload_name p).length + 8 + (payload_content p).length < USIZE →
      encode_image carrier p = .error .PayloadTooLarge) ∧
    ∃ e, decode_image carrier = .error e ∧
      (e.isTruncatedFrame = true ∨ e = .InvalidName) := by
  constructor
  · intro hL
    refine encode_fails_small carrier p ?_ hC
    cases p with
    | File nm ct =>
      simp only [payload_name, payload_content] at hL
      rw [Payload_size_File nm ct (by omega)]
      omega
    | Literal ct =>
      simp only [payload_name, payload_content] at hL
      show 10 ≤ (ct.length + 8 + outputTxt.length + 2) % USIZE
      rw [Nat.mod_eq_of_lt (by
        have h10 : outputTxt.length = 10 := rfl
        omega)]
      omega
  · refine decode_frame_short _ ?_
    rw [length_create_byte_chunks]
    omega

/-- Witness for C7: a 24-byte carrier and the empty literal payload. -/
theorem shh_c7_witness :
    (2 + (payload_name (Payload.Literal [])).length + 8 +
        (payload_content (Payload.Literal [])).length < USIZE →
      encode_image (List.replicate 24 0) (Payload.Literal [])
        = .error .PayloadTooLarge) ∧
    ∃ e, decode_image (List.replicate 24 0) = .error e ∧
      (e.isTruncatedFrame = true ∨ e = .InvalidName) :=
  shh_c7 (List.replicate 24 0) (Payload.Literal []) (by decide)

/-- Counterexample to C7 as stated: the empty carrier is shorter than 80
bytes, yet a payload of `2^64 - 10` content bytes wraps `Payload::size` to 0,
the capacity check passes, and encode succeeds (returning the untouched
carrier) instead of failing with `PayloadTooLarge`; moreover a 24-byte
carrier can make decode fail with `InvalidName`, which is not a
capacity/truncation error kind. -/
theorem shh_c7_cex :
    encode_image [] (Payload.File [] (List.replicate (2 ^ 64 - 10) 0))
        = .ok [] ∧
    ([] : List Nat).length < 80 ∧
    decode_image
        [1, 1, 0, 0, 0, 0, 0, 0,  0, 0, 0, 0, 0, 0, 0, 0,
         1, 1, 1, 1, 1, 1, 1, 1] = .error .InvalidName ∧
    ([1, 1, 0, 0, 0, 0, 0, 0,  0, 0, 0, 0, 0, 0, 0, 0,
      1, 1, 1, 1, 1, 1, 1, 1] : List Nat).length < 80 ∧
    ShhError.isTruncatedFrame .InvalidName = false := by
  refine ⟨?_, by decide, rfl, by decide, rfl⟩
  have hs : (Payload.File [] (List.replicate (2 ^ 64 - 10) 0)).size = 0 := by
    rw [Payload_size_File_eq, List.length_replicate]
    norm_num [USIZE]
  unfold encode_image
  rw [hs, if_pos (by decide),
    into_bytes_File [] (List.replicate (2 ^ 64 - 10) 0) (by decide)]
  dsimp only
  rw [List.take_zero, List.zip_nil_right]
  rfl

end Shh
